import Mathlib

/-! # Responder-side DHT handlers (`handlers.go`)

A shallow embedding of the message handlers of the DHT node: the value
handlers (`handleGetValue`, `handlePutValue`, `checkLocalDatastore`,
`cleanRecord`), the provider handlers (`handleGetProviders`,
`handleAddProvider`), the discovery handler (`handleFindPeer`) and the
replication protocol (`handleAddFile`, `SendToClosestLeaf`,
`GetClosestSuperPeers`).

The node talks to external collaborators (datastore, provider table,
peerstore, routing, transport, pin executor).  Every call that changes a
collaborator or sends something is recorded as an `Event`; the state of the
world is the `History` of events so far, and what a collaborator answers is a
function of that history.  Go pointers to messages and records become values
that are returned explicitly.
-/

namespace DHT

/-! ## Data model -/

abbrev Bytes := List UInt8
abbrev PeerID := String
abbrev Multiaddr := String
abbrev Cid := String
abbrev DsKey := String
abbrev Error := String
/-- Instants, in nanoseconds. -/
abbrev Time := Int
/-- Go `time.Duration`: a signed 64-bit count of nanoseconds. -/
abbrev Duration := Int

/-- Conversion to Go `int32` (two's complement wrap-around). -/
def wrap32 (x : Int) : Int := (x + 2147483648) % 4294967296 - 2147483648

def maxDuration : Duration := 9223372036854775807
def minDuration : Duration := -9223372036854775808

/-- Go `time.Time.Sub`: the difference `t - u`, saturated to the range of
`time.Duration`. -/
def Sub (t u : Time) : Duration :=
  if t - u > maxDuration then maxDuration
  else if t - u < minDuration then minDuration
  else t - u

/-- The zero value of Go `time.Time` (January 1, year 1, 00:00 UTC) in
nanoseconds relative to the Unix epoch. -/
def zeroTime : Time := -62135596800000000000

/-- The value `ds.ErrNotFound`. -/
def ErrNotFound : Error := "datastore: key not found"

inductive MessageType
  | PUT_VALUE | GET_VALUE | ADD_PROVIDER | GET_PROVIDERS | FIND_NODE | PING
  | ADD_FILE | REMOVE_FILE
  deriving DecidableEq

/-- Go `recpb.Record`.  Optional (pointer) fields are `Option`s, byte slices
are lists (the nil slice is the empty list). -/
structure Record where
  key : Option String
  value : Bytes
  author : Option String
  signature : Bytes
  timeReceived : Option String
  XXX_unrecognized : Bytes
  deriving DecidableEq

def Record.GetAuthor (r : Record) : String := r.author.getD ""

def Record.GetTimeReceived (r : Record) : String := r.timeReceived.getD ""

/-- A peer entry of a message (`pb.Message_Peer`). -/
structure PBPeer where
  id : String
  addrs : List Multiaddr
  connection : Nat
  deriving DecidableEq

/-- Go `pstore.PeerInfo`. -/
structure PeerInfo where
  ID : PeerID
  Addrs : List Multiaddr
  deriving DecidableEq

/-- Go `pb.Message`.  `clusterLevelRaw` is the `levelField` of the
specification, an `int32`. -/
structure Message where
  type : MessageType
  clusterLevelRaw : Int
  key : String
  record : Option Record
  closerPeers : List PBPeer
  providerPeers : List PBPeer
  deriving DecidableEq

/-- What `sendRequest` gives back: a transport error, or a reply (which may be
the nil message). -/
inductive Reply
  | failed (err : Error)
  | answered (resp : Option Message)
  deriving DecidableEq

/-- The calls by which a handler changes a collaborator or sends something. -/
inductive Event
  | dsPut (k : DsKey) (data : Bytes)
  | dsDelete (k : DsKey)
  | addAddrs (id : PeerID) (addrs : List Multiaddr)
  | addProvider (c : Cid) (p : PeerID)
  | sendMessage (p : PeerID) (m : Message)
  | sendRequest (p : PeerID) (m : Message) (reply : Reply)
  | pinSetTask (key : String)
  deriving DecidableEq

abbrev History := List Event

/-- What the datastore holds under a key: Go `interface{}`, which is a byte
slice or something else. -/
inductive DsValue
  | bytes (b : Bytes)
  | other
  deriving DecidableEq

/-- What a handler gives back: the Go pair `(*pb.Message, error)`, or a
run-time panic. -/
inductive Result
  | ret (msg : Option Message) (err : Option Error)
  | panic
  deriving DecidableEq

/-- The node: its own identifier and its collaborators.  Collaborators are
outside this file of the program; each is given by what it answers after a
given history. -/
structure IpfsDHT where
  self : PeerID
  /-- The call `datastore.Get`. -/
  dsGet : History → DsKey → Except Error DsValue
  /-- The error of `datastore.Put` -/
  dsPut : History → DsKey → Bytes → Option Error
  /-- The error of `datastore.Delete` -/
  dsDelete : History → DsKey → Option Error
  /-- The call `datastore.Has`. -/
  dsHas : History → DsKey → Bool × Option Error
  /-- The call `providers.GetProviders`. -/
  GetProviders : History → Cid → List PeerID
  /-- The addresses the peerstore knows for a peer -/
  peerAddrs : History → PeerID → List Multiaddr
  /-- The call `host.Network().Connectedness`. -/
  Connectedness : History → PeerID → Nat
  /-- The call `betterPeersToQuery`; `none` is the nil slice. -/
  betterPeersToQuery : History → Message → PeerID → Nat → Option (List PeerID)
  /-- The call `GetClosestPeers`: the peers its channel delivers, in order. -/
  GetClosestPeers : History → String → Except Error (List PeerID)
  /-- The error of `sendMessage` -/
  sendMessage : History → PeerID → Message → Option Error
  /-- The call `sendRequest`. -/
  sendRequest : History → PeerID → Message → Reply
  /-- The string read from the channel of `pin.GetTaskResult` -/
  GetTaskResult : History → String
  /-- The call `cid.Cast`. -/
  cidCast : String → Except Error Cid
  /-- The call `Cid.KeyString`. -/
  KeyString : Cid → String
  /-- The call `ds.NewKey`. -/
  NewKey : String → DsKey
  /-- The call `base32.RawStdEncoding.EncodeToString`. -/
  base32Encode : String → String
  /-- The call `proto.Marshal`. -/
  Marshal : Record → Except Error Bytes
  /-- The call `proto.Unmarshal`. -/
  Unmarshal : Bytes → Except Error Record
  /-- The call `u.FormatRFC3339`. -/
  FormatRFC3339 : Time → String
  /-- The call `u.ParseRFC3339`. -/
  ParseRFC3339 : String → Except Error Time
  /-- The call `verifyRecordLocally`. -/
  verifyRecordLocally : History → Record → Option Error
  /-- The call `pb.Message.GetClusterLevel`. -/
  GetClusterLevel : Message → Int
  /-- The constant `KValue`, the value of `CloserPeerCount`. -/
  CloserPeerCount : Nat
  /-- The call `MaxRecordAge`. -/
  MaxRecordAge : Duration

/-! ## Message helpers -/

/-- Modelled from the spec: `pb.Message.SetClusterLevel` is not under `src/`;
the handlers "set `levelField`" to the given number, stored as an `int32`. -/
def SetClusterLevel (m : Message) (level : Int) : Message :=
  { m with clusterLevelRaw := wrap32 level }

/-- Modelled from the spec: `pb.NewMessage` is not under `src/`; a fresh
message with the given type, key and level and nothing else. -/
def NewMessage (typ : MessageType) (key : String) (level : Int) : Message :=
  SetClusterLevel
    { type := typ, clusterLevelRaw := 0, key := key, record := none,
      closerPeers := [], providerPeers := [] } level

/-- Modelled from the spec: `pb.PBPeersToPeerInfos` is not under `src/`; each
peer entry of a message gives one peer info with its identifier and
addresses. -/
def PBPeersToPeerInfos (pbps : List PBPeer) : List PeerInfo :=
  pbps.map fun pbp => { ID := pbp.id, Addrs := pbp.addrs }

/-- Go `pstore.PeerInfos`: resolve each identifier in the peerstore. -/
def PeerInfos (dht : IpfsDHT) (h : History) (peers : List PeerID) : List PeerInfo :=
  peers.map fun p => { ID := p, Addrs := dht.peerAddrs h p }

/-- Modelled from the spec: `pb.PeerInfosToPBPeers` is not under `src/`; each
peer info gives one entry with its identifier, its addresses and how the
node is connected to it. -/
def PeerInfosToPBPeers (dht : IpfsDHT) (h : History) (infos : List PeerInfo) : List PBPeer :=
  infos.map fun pi =>
    { id := pi.ID, addrs := pi.Addrs, connection := dht.Connectedness h pi.ID }

def convertToDsKey (dht : IpfsDHT) (s : String) : DsKey :=
  dht.NewKey (dht.base32Encode s)

/-! ## Value handlers -/

/-- Cleans the record (to avoid storing arbitrary data). -/
def cleanRecord (rec : Record) : Record :=
  let rec1 := { rec with XXX_unrecognized := [], timeReceived := none }
  if rec1.signature.length = 0 then { rec1 with author := none } else rec1

def checkLocalDatastore (dht : IpfsDHT) (now : Time) (h : History) (k : String) :
    (Option Record × Option Error) × History :=
  let dskey := convertToDsKey dht k
  match dht.dsGet h dskey with
  | .error err =>
    if err = ErrNotFound then ((none, none), h)
    -- if we got an unexpected error, bail.
    else ((none, some err), h)
  | .ok .other => ((none, some "datastore had non byte-slice value"), h)
  | .ok (.bytes byts) =>
    match dht.Unmarshal byts with
    | .error err => ((none, some err), h)
    | .ok rec =>
      -- if its our record, dont bother checking the times on it
      if rec.GetAuthor = dht.self then ((some rec, none), h)
      else
        let parsed := dht.ParseRFC3339 rec.GetTimeReceived
        let recvtime : Time := match parsed with
          | .ok t => t
          | .error _ => zeroTime
        let recordIsBad : Bool := match parsed with
          | .ok _ => false
          | .error _ => true
        let recordIsBad : Bool :=
          if Sub now recvtime > dht.MaxRecordAge then true else recordIsBad
        if recordIsBad then
          -- the error of the delete is only logged
          ((none, none), h ++ [Event.dsDelete dskey])
        else ((some rec, none), h)

def handleGetValue (dht : IpfsDHT) (now : Time) (h : History) (p : PeerID) (pmes : Message) :
    Result × History :=
  -- setup response
  let resp := NewMessage pmes.type pmes.key (dht.GetClusterLevel pmes)
  -- first, is there even a key?
  let k := pmes.key
  if k = "" then (.ret none (some "handleGetValue but no key was provided"), h)
  else
    match checkLocalDatastore dht now h k with
    | ((_, some err), h1) => (.ret none (some err), h1)
    | ((rec, none), h1) =>
      let resp := { resp with record := rec }
      let closer := (dht.betterPeersToQuery h1 pmes p dht.CloserPeerCount).getD []
      if closer.length > 0 then
        let closerinfos := PeerInfos dht h1 closer
        (.ret (some { resp with closerPeers := PeerInfosToPBPeers dht h1 closerinfos }) none, h1)
      else (.ret (some resp) none, h1)

/-- Store a value in this peer local storage. -/
def handlePutValue (dht : IpfsDHT) (now : Time) (h : History) (_p : PeerID) (pmes : Message) :
    Result × History :=
  let dskey := convertToDsKey dht pmes.key
  match pmes.record with
  | none => (.ret none (some "nil record"), h)
  | some rec0 =>
    let rec1 := cleanRecord rec0
    match dht.verifyRecordLocally h rec1 with
    | some err => (.ret none (some err), h)
    | none =>
      -- record the time we receive every record
      let rec2 := { rec1 with timeReceived := some (dht.FormatRFC3339 now) }
      match dht.Marshal rec2 with
      | .error err => (.ret none (some err), h)
      | .ok data =>
        (.ret (some { pmes with record := some rec2 }) (dht.dsPut h dskey data),
          h ++ [Event.dsPut dskey data])

def handlePing (_dht : IpfsDHT) (h : History) (_p : PeerID) (pmes : Message) :
    Result × History :=
  (.ret (some pmes) none, h)

/-! ## Discovery handler -/

def handleFindPeer (dht : IpfsDHT) (h : History) (p : PeerID) (pmes : Message) :
    Result × History :=
  let resp := NewMessage pmes.type "" (dht.GetClusterLevel pmes)
  -- if looking for self... special case where we send it on CloserPeers.
  let closest : Option (List PeerID) :=
    if pmes.key = dht.self then some [dht.self]
    else dht.betterPeersToQuery h pmes p dht.CloserPeerCount
  match closest with
  | none => (.ret (some resp) none, h)
  | some closest =>
    let closestinfos := PeerInfos dht h closest
    let withAddresses := closestinfos.filter fun pi => pi.Addrs.length > 0
    (.ret (some { resp with closerPeers := PeerInfosToPBPeers dht h withAddresses }) none, h)

/-! ## Provider handlers -/

def handleGetProviders (dht : IpfsDHT) (h : History) (p : PeerID) (pmes : Message) :
    Result × History :=
  let resp := NewMessage pmes.type pmes.key (dht.GetClusterLevel pmes)
  match dht.cidCast pmes.key with
  | .error err => (.ret none (some err), h)
  | .ok c =>
    -- check if we have this value, to add ourselves as provider.
    let probe := dht.dsHas h (convertToDsKey dht (dht.KeyString c))
    let has : Bool :=
      if probe.2 ≠ none ∧ probe.2 ≠ some ErrNotFound then false else probe.1
    -- setup providers
    let providers := dht.GetProviders h c
    let providers := if has then providers ++ [dht.self] else providers
    let resp :=
      if providers.length > 0 then
        { resp with providerPeers := PeerInfosToPBPeers dht h (PeerInfos dht h providers) }
      else resp
    -- Also send closer peers.
    match dht.betterPeersToQuery h pmes p dht.CloserPeerCount with
    | some closer =>
      (.ret (some { resp with closerPeers := PeerInfosToPBPeers dht h (PeerInfos dht h closer) })
        none, h)
    | none => (.ret (some resp) none, h)

/-- The loop over the announced provider entries, which `handleAddProvider`
and `handleAddFile` both run. -/
def addProviderLoop (dht : IpfsDHT) (c : Cid) (p : PeerID) : List PeerInfo → History → History
  | [], h => h
  | pi :: rest, h =>
    if pi.ID ≠ p then
      -- we should ignore this provider reccord! not from originator.
      addProviderLoop dht c p rest h
    else if pi.Addrs.length < 1 then
      addProviderLoop dht c p rest h
    else
      -- dont add own addrs.
      let h1 := if pi.ID ≠ dht.self then h ++ [Event.addAddrs pi.ID pi.Addrs] else h
      addProviderLoop dht c p rest (h1 ++ [Event.addProvider c p])

def handleAddProvider (dht : IpfsDHT) (h : History) (p : PeerID) (pmes : Message) :
    Result × History :=
  match dht.cidCast pmes.key with
  | .error err => (.ret none (some err), h)
  | .ok c =>
    -- add provider should use the address given in the message
    let pinfos := PBPeersToPeerInfos pmes.providerPeers
    (.ret none none, addProviderLoop dht c p pinfos h)

/-! ## Replication protocol -/

/-- Where the loop of `SendToClosestLeaf` stands when it is left: whether it
was left by the early `return nil, nil`, the value of `count`, and the
history. -/
structure LeafLoop where
  early : Bool
  count : Int
  h : History
  deriving DecidableEq

/-- The loop `for p := range peers` of `SendToClosestLeaf`. -/
def leafLoop (dht : IpfsDHT) (oristr : PeerID) (pmes : Message) :
    List PeerID → Int → History → LeafLoop
  | [], count, h => { early := false, count := count, h := h }
  | p :: rest, count, h =>
    if p = oristr then leafLoop dht oristr pmes rest count h
    else
      let reply := dht.sendRequest h p pmes
      let h1 := h ++ [Event.sendRequest p pmes reply]
      match reply with
      | .failed _ => leafLoop dht oristr pmes rest count h1
      | .answered none => leafLoop dht oristr pmes rest count h1
      | .answered (some resp) =>
        if resp.clusterLevelRaw = 88 then
          let count1 := wrap32 (count - 1)
          if count1 = 0 then { early := true, count := count1, h := h1 }
          else leafLoop dht oristr pmes rest count1 h1
        else leafLoop dht oristr pmes rest count h1

def SendToClosestLeaf (dht : IpfsDHT) (h : History) (pmes : Message) : Result × History :=
  match dht.GetClosestPeers h pmes.key with
  | .error err => (.ret none (some err), h)
  | .ok peers =>
    let count := wrap32 (pmes.clusterLevelRaw - 10)
    let pmes := SetClusterLevel pmes 50
    match dht.cidCast pmes.key with
    | .error err => (.ret none (some err), h)
    | .ok _ =>
      match PBPeersToPeerInfos pmes.providerPeers with
      -- `pinfos[0]` of an empty slice: index out of range
      | [] => (.panic, h)
      | pi0 :: _ =>
        let oristr := pi0.ID
        let r := leafLoop dht oristr pmes peers count h
        if r.early then (.ret none none, r.h) else (.ret (some pmes) none, r.h)

def GetClosestSuperPeers (dht : IpfsDHT) (_key : String) : Except Error (List PeerID) :=
  .ok [dht.self]

/-- The tasks that `handleAddFile` starts, one per super peer, and waits for;
the flag tells whether one of them panicked.  `GetClosestSuperPeers` delivers
one peer, so one task runs. -/
def superPeerTasks (dht : IpfsDHT) (pmes : Message) : List PeerID → History → Bool × History
  | [], h => (false, h)
  | pp :: rest, h =>
    if pp = dht.self then
      -- myself is the closed peer
      match SendToClosestLeaf dht h pmes with
      | (.panic, h1) => (true, h1)
      | (.ret _ _, h1) => superPeerTasks dht pmes rest h1
    else
      -- the error of the send is only logged
      superPeerTasks dht pmes rest (h ++ [Event.sendMessage pp pmes])

def handleAddFile (dht : IpfsDHT) (h : History) (p : PeerID) (pmes : Message) :
    Result × History :=
  match dht.cidCast pmes.key with
  | .error err => (.ret none (some err), h)
  | .ok c =>
    -- add provider should use the address given in the message
    let pinfos := PBPeersToPeerInfos pmes.providerPeers
    let h := addProviderLoop dht c p pinfos h
    let curentLevel := pmes.clusterLevelRaw
    if curentLevel < 10 then
      match GetClosestSuperPeers dht pmes.key with
      | .error err => (.ret none (some err), h)
      | .ok peers =>
        let pmes := SetClusterLevel pmes (curentLevel + 10)
        match superPeerTasks dht pmes peers h with
        | (true, h1) => (.panic, h1)
        | (false, h1) => (.ret none none, h1)
    else if curentLevel < 20 ∧ curentLevel > 10 then
      match SendToClosestLeaf dht h pmes with
      | (.panic, h1) => (.panic, h1)
      | (.ret _ _, h1) => (.ret none none, h1)
    else
      -- leaf node , start get key cmd , call pin add file
      let h1 := h ++ [Event.pinSetTask pmes.key]
      let str := dht.GetTaskResult h1
      if str = "OK" then (.ret (some (SetClusterLevel pmes 88)) none, h1)
      else (.ret (some (SetClusterLevel pmes 99)) none, h1)

/-! ## A small network for concrete runs

Node `A` with a datastore, a provider table and a peerstore that are read off
the history, leaf candidates `A` and `C`, and a leaf `C` that answers every
request with the success level 88. -/

/-- A datastore read off the history: the last put or delete of a key
decides. -/
def mapGet (h : History) (k : DsKey) : Except Error DsValue :=
  match h.reverse.find? fun e =>
      match e with
      | .dsPut k1 _ => decide (k1 = k)
      | .dsDelete k1 => decide (k1 = k)
      | _ => false with
  | some (.dsPut _ data) => .ok (.bytes data)
  | _ => .error ErrNotFound

/-- The providers announced so far for a content identifier. -/
def announced (h : History) (c : Cid) : List PeerID :=
  h.filterMap fun e =>
    match e with
    | .addProvider c1 p => if c1 = c then some p else none
    | _ => none

/-- The addresses merged so far for a peer. -/
def merged (h : History) (p : PeerID) : List Multiaddr :=
  (h.filterMap fun e =>
    match e with
    | .addAddrs p1 addrs => if p1 = p then some addrs else none
    | _ => none).flatten

/-- The one record the codec of the small network knows. -/
def stampedRecord : Record :=
  { key := some "k", value := [1, 2, 3], author := none, signature := [],
    timeReceived := some "T1000", XXX_unrecognized := [] }

def nodeA : IpfsDHT where
  self := "A"
  dsGet := mapGet
  dsPut := fun _ _ _ => none
  dsDelete := fun _ _ => none
  dsHas := fun h k =>
    (match mapGet h k with
      | .ok _ => true
      | .error _ => false, none)
  GetProviders := announced
  peerAddrs := merged
  Connectedness := fun _ _ => 0
  betterPeersToQuery := fun _ _ _ _ => none
  GetClosestPeers := fun _ _ => .ok ["A", "C"]
  sendMessage := fun _ _ _ => none
  sendRequest := fun _ p m =>
    if p = "C" then .answered (some (SetClusterLevel m 88)) else .failed "unreachable"
  GetTaskResult := fun _ => "OK"
  cidCast := fun s => if s = "" then .error "invalid cid" else .ok s
  KeyString := fun c => c
  NewKey := fun s => "/" ++ s
  base32Encode := fun s => s
  Marshal := fun r => if r = stampedRecord then .ok [7] else .error "marshal"
  Unmarshal := fun b => if b = [7] then .ok stampedRecord else .error "unmarshal"
  FormatRFC3339 := fun t => if t = 1000 then "T1000" else "T"
  ParseRFC3339 := fun s => if s = "T1000" then .ok 1000 else .error "parse"
  verifyRecordLocally := fun _ _ => none
  GetClusterLevel := fun m => m.clusterLevelRaw
  CloserPeerCount := 20
  MaxRecordAge := 129600000000000

/-- An ADD_FILE message for the content `cidX`. -/
def addFileMsg (level : Int) (providers : List PBPeer) : Message :=
  { type := .ADD_FILE, clusterLevelRaw := level, key := "cidX", record := none,
    closerPeers := [], providerPeers := providers }

def peerA : PBPeer := { id := "A", addrs := ["/ip4/10.0.0.1"], connection := 0 }

/-- An ADD_FILE message at level 12 whose key, the empty string, does not
parse as a content identifier. -/
def unparsableKeyMsg : Message :=
  { type := .ADD_FILE, clusterLevelRaw := 12, key := "", record := none,
    closerPeers := [], providerPeers := [peerA] }

/-- A FIND_NODE request for the node `A` itself. -/
def findSelfMsg : Message :=
  { type := .FIND_NODE, clusterLevelRaw := 0, key := "A", record := none,
    closerPeers := [], providerPeers := [] }

/-- A GET_PROVIDERS request for the content `cidX`. -/
def getProvidersMsg : Message :=
  { type := .GET_PROVIDERS, clusterLevelRaw := 0, key := "cidX", record := none,
    closerPeers := [], providerPeers := [] }

/-- A PUT_VALUE message for a key, with an unsigned record that names an
author and a receive time of the sender. -/
def putMsg (k : String) : Message :=
  { type := .PUT_VALUE, clusterLevelRaw := 0, key := k,
    record := some { key := some "k", value := [1, 2, 3], author := some "X",
                     signature := [], timeReceived := some "sender time",
                     XXX_unrecognized := [9] },
    closerPeers := [], providerPeers := [] }

/-- A GET_VALUE message for a key. -/
def getMsg (k : String) : Message :=
  { type := .GET_VALUE, clusterLevelRaw := 0, key := k, record := none,
    closerPeers := [], providerPeers := [] }

/-! ## Vocabulary of the statements -/

/-- An announced provider entry is accepted when its identifier is the
sender and it carries at least one address. -/
def accepted (p : PeerID) (pi : PeerInfo) : Bool :=
  decide (pi.ID = p) && decide (1 ≤ pi.Addrs.length)

/-- What is recorded for one accepted entry: its addresses in the peerstore
(not for the node itself), then the sender as a provider. -/
def announce (dht : IpfsDHT) (c : Cid) (p : PeerID) (pi : PeerInfo) : List Event :=
  (if pi.ID ≠ dht.self then [Event.addAddrs pi.ID pi.Addrs] else []) ++
    [Event.addProvider c p]

/-- A reply that carries the success level 88. -/
def is88 (reply : Reply) : Bool :=
  match reply with
  | .answered (some resp) => decide (resp.clusterLevelRaw = 88)
  | _ => false

/-- The requests behind a list of contacted peers and their replies. -/
def requestEvents (pmes : Message) (tr : List (PeerID × Reply)) : List Event :=
  tr.map fun e => Event.sendRequest e.1 pmes e.2

/-- Every reply in the list is what the transport answered when the peer was
asked, after the requests before it. -/
def answersOf (dht : IpfsDHT) (pmes : Message) : History → List (PeerID × Reply) → Prop
  | _, [] => True
  | h, e :: tr =>
    e.2 = dht.sendRequest h e.1 pmes ∧
      answersOf dht pmes (h ++ [Event.sendRequest e.1 pmes e.2]) tr

/-- What one run of the loop of `SendToClosestLeaf` over `peers`, entered
with `count` after the history `h` and left as `r`, has done: the peers asked
and their replies, in order. -/
def RelayTrace (dht : IpfsDHT) (oristr : PeerID) (pmes : Message) (peers : List PeerID)
    (count : Int) (h : History) (r : LeafLoop) : Prop :=
  ∃ tr : List (PeerID × Reply),
    r.h = h ++ requestEvents pmes tr ∧
    answersOf dht pmes h tr ∧
    tr.map Prod.fst <+: peers.filter (· ≠ oristr) ∧
    r.count = count - (tr.countP fun e => is88 e.2) ∧
    (r.early = true → r.count = 0 ∧ ∃ tr0 last, tr = tr0 ++ [last] ∧ is88 last.2 = true) ∧
    (r.early = false → tr.map Prod.fst = peers.filter (· ≠ oristr) ∧ 0 < r.count)

/-- The freshness condition of a stored record: the local node is its
author, or its receive time parses and lies at most `MaxRecordAge` before
`now`. -/
def isFresh (dht : IpfsDHT) (now : Time) (rec : Record) : Prop :=
  rec.GetAuthor = dht.self ∨
    ∃ t, dht.ParseRFC3339 rec.GetTimeReceived = .ok t ∧ Sub now t ≤ dht.MaxRecordAge

/-! ## Theorems -/

/-- C8: a record whose signature is absent or empty has no author after
cleaning, whatever author it carried; and cleaning a cleaned record changes
nothing. -/
theorem cleanRecord_author_idempotent (r : Record) :
    (cleanRecord { r with signature := [] }).author = none ∧
    cleanRecord (cleanRecord r) = cleanRecord r := by
  constructor
  · simp [cleanRecord]
  · unfold cleanRecord
    by_cases hs : r.signature.length = 0 <;> simp [hs]

/-! ### Provider announcements -/

theorem addProviderLoop_eq (dht : IpfsDHT) (c : Cid) (p : PeerID) (pinfos : List PeerInfo) :
    ∀ h : History, addProviderLoop dht c p pinfos h =
      h ++ (pinfos.filter (accepted p)).flatMap (announce dht c p) := by
  induction pinfos with
  | nil => intro h; simp [addProviderLoop]
  | cons pi rest ih =>
    intro h
    rw [addProviderLoop, List.filter_cons]
    by_cases hacc : accepted p pi = true
    · have h1 : pi.ID = p ∧ 1 ≤ pi.Addrs.length := by simpa [accepted] using hacc
      have h2 : ¬ (pi.ID ≠ p) := by simp [h1.1]
      have h3 : ¬ (pi.Addrs.length < 1) := by omega
      rw [if_neg h2, if_neg h3, if_pos hacc, ih, List.flatMap_cons]
      unfold announce
      split <;> simp [List.append_assoc]
    · rw [if_neg hacc]
      by_cases h2 : pi.ID ≠ p
      · rw [if_pos h2, ih]
      · have h3 : pi.Addrs.length < 1 := by
          by_contra hlen
          apply hacc
          have h4 : pi.ID = p := by simpa using h2
          have h5 : 1 ≤ pi.Addrs.length := by omega
          simp only [accepted, h4, h5, decide_True, Bool.and_self]
        rw [if_neg h2, if_pos h3, ih]

theorem mem_announce {dht : IpfsDHT} {c : Cid} {p : PeerID} {pi : PeerInfo} {e : Event}
    (he : e ∈ announce dht c p pi) :
    e = Event.addAddrs pi.ID pi.Addrs ∨ e = Event.addProvider c p := by
  unfold announce at he
  by_cases hself : pi.ID = dht.self
  · simp [hself] at he; exact Or.inr he
  · simp [hself] at he; exact he

/-- C5: handleAddProvider with a parsable key returns no response and no
error, and what it records is exactly the announcements of the accepted
entries (identifier equal to the sender, at least one address), in order; so
nothing is recorded when no entry is accepted, every recorded provider is the
sender, addresses are merged only for accepted entries, and an accepted entry
is recorded wherever it stands in the list. -/
theorem handleAddProvider_anti_spoofing (dht : IpfsDHT) (h : History) (p : PeerID)
    (pmes : Message) (c : Cid) (hcid : dht.cidCast pmes.key = .ok c) :
    ∃ evs : List Event,
      handleAddProvider dht h p pmes = (.ret none none, h ++ evs) ∧
      evs = ((PBPeersToPeerInfos pmes.providerPeers).filter (accepted p)).flatMap
        (announce dht c p) ∧
      ((∀ pi ∈ PBPeersToPeerInfos pmes.providerPeers,
          pi.ID ≠ p ∨ pi.Addrs.length < 1) → evs = []) ∧
      (∀ c1 q, Event.addProvider c1 q ∈ evs → c1 = c ∧ q = p) ∧
      (∀ id addrs, Event.addAddrs id addrs ∈ evs →
        id = p ∧ 1 ≤ addrs.length ∧
          ({ ID := id, Addrs := addrs } : PeerInfo) ∈ PBPeersToPeerInfos pmes.providerPeers) ∧
      (∀ e ∈ evs, (∃ id addrs, e = Event.addAddrs id addrs) ∨ ∃ c1 q, e = Event.addProvider c1 q) ∧
      (∀ pi ∈ PBPeersToPeerInfos pmes.providerPeers,
        pi.ID = p → 1 ≤ pi.Addrs.length → Event.addProvider c p ∈ evs) := by
  refine ⟨_, ?_, rfl, ?_, ?_, ?_, ?_, ?_⟩
  · simp [handleAddProvider, hcid, addProviderLoop_eq]
  · intro hall
    have : (PBPeersToPeerInfos pmes.providerPeers).filter (accepted p) = [] := by
      rw [List.filter_eq_nil_iff]
      intro pi hpi
      have hacc : ¬ (accepted p pi = true) := by
        intro hacc
        have h2 : pi.ID = p ∧ 1 ≤ pi.Addrs.length := by simpa [accepted] using hacc
        rcases hall pi hpi with h1 | h1
        · exact h1 h2.1
        · omega
      simpa using hacc
    simp [this]
  · intro c1 q hmem
    rw [List.mem_flatMap] at hmem
    obtain ⟨pi, _, he⟩ := hmem
    rcases mem_announce he with h1 | h1
    · cases h1
    · cases h1; exact ⟨rfl, rfl⟩
  · intro id addrs hmem
    rw [List.mem_flatMap] at hmem
    obtain ⟨pi, hpi, he⟩ := hmem
    rw [List.mem_filter] at hpi
    have hacc : pi.ID = p ∧ 1 ≤ pi.Addrs.length := by simpa [accepted] using hpi.2
    rcases mem_announce he with h1 | h1
    · cases h1; exact ⟨hacc.1, hacc.2, hpi.1⟩
    · cases h1
  · intro e hmem
    rw [List.mem_flatMap] at hmem
    obtain ⟨pi, _, he⟩ := hmem
    rcases mem_announce he with h1 | h1
    · exact Or.inl ⟨_, _, h1⟩
    · exact Or.inr ⟨_, _, h1⟩
  · intro pi hpi hid hlen
    rw [List.mem_flatMap]
    refine ⟨pi, ?_, ?_⟩
    · rw [List.mem_filter]
      exact ⟨hpi, by simp only [accepted, hid, hlen, decide_True, Bool.and_self]⟩
    · simp [announce]

theorem handleAddProvider_anti_spoofing_witness :
    handleAddProvider nodeA [] "B"
        { type := .ADD_PROVIDER, clusterLevelRaw := 0, key := "cidX", record := none,
          closerPeers := [],
          providerPeers :=
            [{ id := "X", addrs := ["/ip4/10.0.0.9"], connection := 0 },
             { id := "B", addrs := [], connection := 0 },
             { id := "B", addrs := ["/ip4/10.0.0.2"], connection := 0 }] } =
      (.ret none none,
        [Event.addAddrs "B" ["/ip4/10.0.0.2"], Event.addProvider "cidX" "B"]) := by
  obtain ⟨evs, h1, h2, _⟩ := handleAddProvider_anti_spoofing nodeA [] "B"
    { type := .ADD_PROVIDER, clusterLevelRaw := 0, key := "cidX", record := none,
      closerPeers := [],
      providerPeers :=
        [{ id := "X", addrs := ["/ip4/10.0.0.9"], connection := 0 },
         { id := "B", addrs := [], connection := 0 },
         { id := "B", addrs := ["/ip4/10.0.0.2"], connection := 0 }] } "cidX" rfl
  rw [h1, h2]
  decide

/-! ### The relay loop -/

theorem leafLoop_filter (dht : IpfsDHT) (oristr : PeerID) (pmes : Message)
    (peers : List PeerID) :
    ∀ (count : Int) (h : History),
      leafLoop dht oristr pmes peers count h =
        leafLoop dht oristr pmes (peers.filter (· ≠ oristr)) count h := by
  induction peers with
  | nil => intro count h; rfl
  | cons p rest ih =>
    intro count h
    by_cases hp : p = oristr
    · rw [leafLoop, if_pos hp, ih]
      simp [List.filter_cons, hp]
    · have hf : (p :: rest).filter (· ≠ oristr) = p :: rest.filter (· ≠ oristr) := by
        simp [List.filter_cons, hp]
      rw [hf, leafLoop, leafLoop, if_neg hp, if_neg hp]
      simp only [ih]

theorem requestEvents_cons (pmes : Message) (p : PeerID) (reply : Reply)
    (tr : List (PeerID × Reply)) :
    requestEvents pmes ((p, reply) :: tr) =
      Event.sendRequest p pmes reply :: requestEvents pmes tr := rfl

theorem not_pin_mem_requestEvents (pmes : Message) (tr : List (PeerID × Reply)) (k : String) :
    Event.pinSetTask k ∉ requestEvents pmes tr := by
  simp [requestEvents]

theorem leafLoop_requests (dht : IpfsDHT) (oristr : PeerID) (pmes : Message)
    (peers : List PeerID) :
    ∀ (count : Int) (h : History),
      ∃ tr, (leafLoop dht oristr pmes peers count h).h = h ++ requestEvents pmes tr := by
  induction peers with
  | nil => intro count h; exact ⟨[], by simp [leafLoop, requestEvents]⟩
  | cons p rest ih =>
    intro count h
    have step : ∀ count1, ∃ tr,
        (leafLoop dht oristr pmes rest count1
          (h ++ [Event.sendRequest p pmes (dht.sendRequest h p pmes)])).h =
          h ++ requestEvents pmes tr := by
      intro count1
      obtain ⟨tr, htr⟩ := ih count1 (h ++ [Event.sendRequest p pmes (dht.sendRequest h p pmes)])
      exact ⟨(p, dht.sendRequest h p pmes) :: tr, by
        rw [htr, requestEvents_cons, List.append_assoc]; rfl⟩
    rw [leafLoop]
    by_cases hp : p = oristr
    · rw [if_pos hp]; exact ih count h
    · rw [if_neg hp]
      cases hrep : dht.sendRequest h p pmes with
      | failed err => simpa [hrep] using step count
      | answered resp =>
        cases resp with
        | none => simpa [hrep] using step count
        | some resp =>
          by_cases h88 : resp.clusterLevelRaw = 88
          · by_cases h0 : wrap32 (count - 1) = 0
            · exact ⟨[(p, .answered (some resp))], by simp [h88, h0, requestEvents]⟩
            · simpa [hrep, h88, h0] using step (wrap32 (count - 1))
          · simpa [hrep, h88] using step count

theorem SendToClosestLeaf_requests (dht : IpfsDHT) (h : History) (pmes : Message) :
    ∃ tr, (SendToClosestLeaf dht h pmes).2 =
      h ++ requestEvents (SetClusterLevel pmes 50) tr := by
  unfold SendToClosestLeaf
  cases dht.GetClosestPeers h pmes.key with
  | error err => exact ⟨[], by simp [requestEvents]⟩
  | ok peers =>
    cases hc : dht.cidCast (SetClusterLevel pmes 50).key with
    | error err => exact ⟨[], by simp [hc, requestEvents]⟩
    | ok c =>
      cases hp : PBPeersToPeerInfos (SetClusterLevel pmes 50).providerPeers with
      | nil => exact ⟨[], by simp [hc, hp, requestEvents]⟩
      | cons pi0 more =>
        obtain ⟨tr, htr⟩ := leafLoop_requests dht pi0.ID (SetClusterLevel pmes 50) peers
          (wrap32 (pmes.clusterLevelRaw - 10)) h
        refine ⟨tr, ?_⟩
        simp only [hc, hp]
        split <;> exact htr

theorem SendToClosestLeaf_result (dht : IpfsDHT) (h : History) (pmes : Message) :
    (SendToClosestLeaf dht h pmes).1 = .panic ∨
      ∃ msg err, (SendToClosestLeaf dht h pmes).1 = .ret msg err := by
  cases hr : (SendToClosestLeaf dht h pmes).1 with
  | panic => exact Or.inl rfl
  | ret msg err => exact Or.inr ⟨msg, err, rfl⟩

theorem wrap32_of_int32 (x : Int) (hlo : -2147483648 ≤ x) (hhi : x ≤ 2147483647) :
    wrap32 x = x := by
  unfold wrap32; omega

theorem leafLoop_trace (dht : IpfsDHT) (oristr : PeerID) (pmes : Message)
    (peers : List PeerID) :
    ∀ (count : Int) (h : History), 0 < count → count ≤ 2147483647 →
      RelayTrace dht oristr pmes peers count h (leafLoop dht oristr pmes peers count h) := by
  induction peers with
  | nil =>
    intro count h hpos _
    exact ⟨[], by simp [leafLoop, requestEvents], trivial, by simp, by simp [leafLoop],
      by simp [leafLoop], by simp [leafLoop, hpos]⟩
  | cons p rest ih =>
    intro count h hpos hmax
    by_cases hp : p = oristr
    · have hf : (p :: rest).filter (· ≠ oristr) = rest.filter (· ≠ oristr) := by
        simp [List.filter_cons, hp]
      rw [leafLoop, if_pos hp]
      unfold RelayTrace
      rw [hf]
      exact ih count h hpos hmax
    · have hf : (p :: rest).filter (· ≠ oristr) = p :: rest.filter (· ≠ oristr) := by
        simp [List.filter_cons, hp]
      -- the loop goes on after this request
      have key : ∀ count1 : Int,
          count1 = count - (if is88 (dht.sendRequest h p pmes) = true then 1 else 0) →
          0 < count1 →
          RelayTrace dht oristr pmes (p :: rest) count h
            (leafLoop dht oristr pmes rest count1
              (h ++ [Event.sendRequest p pmes (dht.sendRequest h p pmes)])) := by
        intro count1 hc1 hpos1
        obtain ⟨tr, h1, h2, h3, h4, h5, h6⟩ := ih count1
          (h ++ [Event.sendRequest p pmes (dht.sendRequest h p pmes)]) hpos1
          (by split at hc1 <;> omega)
        refine ⟨(p, dht.sendRequest h p pmes) :: tr, ?_, ⟨rfl, h2⟩, ?_, ?_, ?_, ?_⟩
        · rw [h1, requestEvents_cons, List.append_assoc]; rfl
        · rw [hf, List.map_cons]; exact (List.prefix_cons_inj p).mpr h3
        · rw [h4, List.countP_cons, hc1]
          split <;> simp_all
          omega
        · intro he
          obtain ⟨hz, tr0, last, ht, hl⟩ := h5 he
          exact ⟨hz, (p, dht.sendRequest h p pmes) :: tr0, last, by simp [ht], hl⟩
        · intro he
          obtain ⟨hm, hc⟩ := h6 he
          exact ⟨by rw [hf, List.map_cons, hm], hc⟩
      rw [leafLoop, if_neg hp]
      cases hrep : dht.sendRequest h p pmes with
      | failed err =>
        have := key count (by simp [hrep, is88]) hpos
        simpa [hrep] using this
      | answered resp =>
        cases resp with
        | none =>
          have := key count (by simp [hrep, is88]) hpos
          simpa [hrep] using this
        | some resp =>
          by_cases h88 : resp.clusterLevelRaw = 88
          · have hw : wrap32 (count - 1) = count - 1 :=
              wrap32_of_int32 _ (by omega) (by omega)
            by_cases h0 : count - 1 = 0
            · have hw0 : wrap32 (count - 1) = 0 := by rw [hw]; exact h0
              simp only [h88, hw0, if_true]
              refine ⟨[(p, .answered (some resp))], by simp [requestEvents],
                ⟨hrep.symm, trivial⟩, by rw [hf]; simp, ?_, ?_, by simp⟩
              · simp [is88, h88]; omega
              · intro _
                exact ⟨rfl, [], (p, .answered (some resp)), by simp, by simp [is88, h88]⟩
            · have := key (count - 1) (by simp [hrep, is88, h88]) (by omega)
              simpa [hrep, h88, hw, h0] using this
          · have := key count (by simp [hrep, is88, h88]) hpos
            simpa [hrep, h88] using this

/-- C9 (as the code has it): the countdown of the relay.  For a message of
level L with 10 < L < 20, a parsable key and a first provider entry, whatever
the leaf candidates and
whatever each of them answers: the peers asked are candidates other than the
first provider's identifier, in the order of the candidates, each asked with
the message at level 50; the count left is L - 10 minus the number of replies
at level 88 (failures and other replies do not change it); asking stops right
after the (L-10)-th reply at level 88 and no message is returned; and with
fewer such replies every candidate other than the provider is asked once. -/
theorem SendToClosestLeaf_countdown (dht : IpfsDHT) (h : History) (pmes : Message)
    (first : PBPeer) (more : List PBPeer) (peers : List PeerID) (c : Cid)
    (hlo : 10 < pmes.clusterLevelRaw) (hhi : pmes.clusterLevelRaw < 20)
    (hprov : pmes.providerPeers = first :: more)
    (hpeers : dht.GetClosestPeers h pmes.key = .ok peers)
    (hcid : dht.cidCast pmes.key = .ok c) :
    ∃ tr : List (PeerID × Reply),
      (SendToClosestLeaf dht h pmes).2 = h ++ requestEvents (SetClusterLevel pmes 50) tr ∧
      (SetClusterLevel pmes 50).clusterLevelRaw = 50 ∧
      answersOf dht (SetClusterLevel pmes 50) h tr ∧
      (∀ e ∈ tr, e.1 ≠ first.id) ∧
      tr.map Prod.fst <+: peers.filter (· ≠ first.id) ∧
      (leafLoop dht first.id (SetClusterLevel pmes 50) peers
        (pmes.clusterLevelRaw - 10) h).count =
          pmes.clusterLevelRaw - 10 - (tr.countP fun e => is88 e.2) ∧
      ((tr.countP fun e => is88 e.2 : Nat) : Int) ≤ pmes.clusterLevelRaw - 10 ∧
      (((tr.countP fun e => is88 e.2 : Nat) : Int) = pmes.clusterLevelRaw - 10 →
        (∃ tr0 last, tr = tr0 ++ [last] ∧ is88 last.2 = true) ∧
        (SendToClosestLeaf dht h pmes).1 = .ret none none) ∧
      (((tr.countP fun e => is88 e.2 : Nat) : Int) < pmes.clusterLevelRaw - 10 →
        tr.map Prod.fst = peers.filter (· ≠ first.id) ∧
        (SendToClosestLeaf dht h pmes).1 = .ret (some (SetClusterLevel pmes 50)) none) := by
  have hw : wrap32 (pmes.clusterLevelRaw - 10) = pmes.clusterLevelRaw - 10 :=
    wrap32_of_int32 _ (by omega) (by omega)
  obtain ⟨tr, h1, h2, h3, h4, h5, h6⟩ := leafLoop_trace dht first.id (SetClusterLevel pmes 50)
    peers (pmes.clusterLevelRaw - 10) h (by omega) (by omega)
  have hkey : (SetClusterLevel pmes 50).key = pmes.key := rfl
  have hpp : PBPeersToPeerInfos (SetClusterLevel pmes 50).providerPeers =
      { ID := first.id, Addrs := first.addrs } :: PBPeersToPeerInfos more := by
    show PBPeersToPeerInfos pmes.providerPeers = _
    rw [hprov]; rfl
  have hcall : SendToClosestLeaf dht h pmes =
      (if (leafLoop dht first.id (SetClusterLevel pmes 50) peers
            (pmes.clusterLevelRaw - 10) h).early = true then Result.ret none none
        else Result.ret (some (SetClusterLevel pmes 50)) none,
       (leafLoop dht first.id (SetClusterLevel pmes 50) peers
            (pmes.clusterLevelRaw - 10) h).h) := by
    simp only [SendToClosestLeaf, hpeers, hkey, hcid, hpp, hw]
    split <;> simp_all
  have h50 : (SetClusterLevel pmes 50).clusterLevelRaw = 50 := by
    show wrap32 50 = 50
    decide
  refine ⟨tr, by rw [hcall]; exact h1, h50, h2, ?_, h3, h4, ?_, ?_, ?_⟩
  · intro e he
    have hmem : e.1 ∈ tr.map Prod.fst := List.mem_map_of_mem _ he
    have := (List.mem_filter.mp (h3.subset hmem)).2
    simpa using this
  · cases he : (leafLoop dht first.id (SetClusterLevel pmes 50) peers
        (pmes.clusterLevelRaw - 10) h).early with
    | true => have := (h5 he).1; omega
    | false => have := (h6 he).2; omega
  · intro hcount
    cases he : (leafLoop dht first.id (SetClusterLevel pmes 50) peers
        (pmes.clusterLevelRaw - 10) h).early with
    | true => exact ⟨(h5 he).2, by rw [hcall, he]; rfl⟩
    | false => have := (h6 he).2; omega
  · intro hcount
    cases he : (leafLoop dht first.id (SetClusterLevel pmes 50) peers
        (pmes.clusterLevelRaw - 10) h).early with
    | true => have := (h5 he).1; omega
    | false => exact ⟨(h6 he).1, by rw [hcall, he]; rfl⟩

theorem SendToClosestLeaf_countdown_witness :
    (10 : Int) < (addFileMsg 12 [peerA]).clusterLevelRaw ∧
    (addFileMsg 12 [peerA]).clusterLevelRaw < 20 ∧
    ∃ tr : List (PeerID × Reply),
      (SendToClosestLeaf nodeA [] (addFileMsg 12 [peerA])).2 =
        requestEvents (addFileMsg 50 [peerA]) tr ∧
      (∀ e ∈ tr, e.1 ≠ "A") ∧
      tr.map Prod.fst <+: ["C"] := by
  refine ⟨by decide, by decide, ?_⟩
  obtain ⟨tr, h1, _, _, h4, h5, _⟩ := SendToClosestLeaf_countdown nodeA []
    (addFileMsg 12 [peerA]) peerA [] ["A", "C"] "cidX" (by decide) (by decide) rfl rfl rfl
  exact ⟨tr, h1, h4, h5⟩

/-- C9, for a key that does not parse, on the small network: the level is
12, there is a provider entry and the leaf candidates are `A` and `C`, and the
relay returns the error of the content identifier before its loop: nobody is
asked, though `C` is not the provider and no reply at level 88 has come. -/
theorem SendToClosestLeaf_unparsable_key_asks_nobody :
    10 < unparsableKeyMsg.clusterLevelRaw ∧
    unparsableKeyMsg.clusterLevelRaw < 20 ∧
    unparsableKeyMsg.providerPeers = [peerA] ∧
    nodeA.GetClosestPeers [] unparsableKeyMsg.key = .ok ["A", "C"] ∧
    (["A", "C"] : List PeerID).filter (· ≠ peerA.id) = ["C"] ∧
    SendToClosestLeaf nodeA [] unparsableKeyMsg = (.ret none (some "invalid cid"), []) := by
  refine ⟨by decide, by decide, rfl, rfl, by decide, by decide⟩

/-! ### Phases of `handleAddFile` -/

theorem superPeerTasks_self (dht : IpfsDHT) (pmes : Message) (h : History) :
    superPeerTasks dht pmes [dht.self] h =
      (decide ((SendToClosestLeaf dht h pmes).1 = .panic), (SendToClosestLeaf dht h pmes).2) := by
  rw [superPeerTasks, if_pos rfl]
  rcases hr : SendToClosestLeaf dht h pmes with ⟨r, h1⟩
  cases r <;> simp [superPeerTasks]

theorem SetClusterLevel_twice (pmes : Message) (a b : Int) :
    SetClusterLevel (SetClusterLevel pmes a) b = SetClusterLevel pmes b := rfl

theorem SendToClosestLeaf_no_panic (dht : IpfsDHT) (h : History) (pmes : Message)
    (hprov : pmes.providerPeers ≠ []) :
    (SendToClosestLeaf dht h pmes).1 ≠ .panic := by
  obtain ⟨first, more, hfm⟩ := List.exists_cons_of_ne_nil hprov
  have hpp : PBPeersToPeerInfos (SetClusterLevel pmes 50).providerPeers =
      { ID := first.id, Addrs := first.addrs } :: PBPeersToPeerInfos more := by
    show PBPeersToPeerInfos pmes.providerPeers = _
    rw [hfm]; rfl
  unfold SendToClosestLeaf
  cases dht.GetClosestPeers h pmes.key with
  | error err => simp
  | ok peers =>
    cases hc : dht.cidCast (SetClusterLevel pmes 50).key with
    | error err => simp [hc]
    | ok c =>
      simp only [hc, hpp]
      split <;> simp

theorem handleAddFile_fanout (dht : IpfsDHT) (h : History) (p : PeerID) (pmes : Message)
    (c : Cid) (hcid : dht.cidCast pmes.key = .ok c) (hlt : pmes.clusterLevelRaw < 10) :
    handleAddFile dht h p pmes =
      (if (SendToClosestLeaf dht
            (addProviderLoop dht c p (PBPeersToPeerInfos pmes.providerPeers) h)
            (SetClusterLevel pmes (pmes.clusterLevelRaw + 10))).1 = .panic
        then .panic else .ret none none,
       (SendToClosestLeaf dht
          (addProviderLoop dht c p (PBPeersToPeerInfos pmes.providerPeers) h)
          (SetClusterLevel pmes (pmes.clusterLevelRaw + 10))).2) := by
  simp only [handleAddFile, hcid, if_pos hlt, GetClosestSuperPeers, superPeerTasks_self]
  by_cases hp : (SendToClosestLeaf dht
      (addProviderLoop dht c p (PBPeersToPeerInfos pmes.providerPeers) h)
      (SetClusterLevel pmes (pmes.clusterLevelRaw + 10))).1 = .panic
  · simp [hp]
  · simp [hp]

theorem handleAddFile_relay (dht : IpfsDHT) (h : History) (p : PeerID) (pmes : Message)
    (c : Cid) (hcid : dht.cidCast pmes.key = .ok c) (hlt : ¬ pmes.clusterLevelRaw < 10)
    (hmid : pmes.clusterLevelRaw < 20 ∧ pmes.clusterLevelRaw > 10) :
    handleAddFile dht h p pmes =
      (if (SendToClosestLeaf dht
            (addProviderLoop dht c p (PBPeersToPeerInfos pmes.providerPeers) h) pmes).1 = .panic
        then .panic else .ret none none,
       (SendToClosestLeaf dht
          (addProviderLoop dht c p (PBPeersToPeerInfos pmes.providerPeers) h) pmes).2) := by
  simp only [handleAddFile, hcid, if_neg hlt, if_pos hmid]
  rcases hr : SendToClosestLeaf dht
      (addProviderLoop dht c p (PBPeersToPeerInfos pmes.providerPeers) h) pmes with ⟨r, h1⟩
  cases r <;> simp

theorem handleAddFile_leaf (dht : IpfsDHT) (h : History) (p : PeerID) (pmes : Message)
    (c : Cid) (hcid : dht.cidCast pmes.key = .ok c) (hlt : ¬ pmes.clusterLevelRaw < 10)
    (hmid : ¬ (pmes.clusterLevelRaw < 20 ∧ pmes.clusterLevelRaw > 10)) :
    handleAddFile dht h p pmes =
      (.ret (some (SetClusterLevel pmes
          (if dht.GetTaskResult
              (addProviderLoop dht c p (PBPeersToPeerInfos pmes.providerPeers) h ++
                [Event.pinSetTask pmes.key]) = "OK" then 88 else 99))) none,
       addProviderLoop dht c p (PBPeersToPeerInfos pmes.providerPeers) h ++
         [Event.pinSetTask pmes.key]) := by
  simp only [handleAddFile, hcid, if_neg hlt, if_neg hmid]
  split <;> simp_all

/-- C1 (as the code has it): for an ADD_FILE message with a parsable key,
after the provider announcements handleAddFile submits the key to the pin
executor, reads its result and returns the message as an acknowledgement
(level 88 on "OK", 99 otherwise) if and only if the level is 10 or at least
20.  For every level below 10 or strictly between 10 and 20 no pin is
submitted; what the handler does instead is the relay SendToClosestLeaf, run
locally on the message with its level raised by 10 when the level is below 10
(the fan-out over the super peers, which are the node itself) and on the
message as it is when the level is between 10 and 20; and with at least one
provider entry the handler then returns no response and no error. -/
theorem handleAddFile_leaf_phase (dht : IpfsDHT) (h : History) (p : PeerID) (pmes : Message)
    (c : Cid) (hcid : dht.cidCast pmes.key = .ok c) :
    ∃ evs : List Event,
      (handleAddFile dht h p pmes).2 = h ++ evs ∧
      ((pmes.clusterLevelRaw = 10 ∨ 20 ≤ pmes.clusterLevelRaw) →
        Event.pinSetTask pmes.key ∈ evs ∧
        (handleAddFile dht h p pmes).2 =
          addProviderLoop dht c p (PBPeersToPeerInfos pmes.providerPeers) h ++
            [Event.pinSetTask pmes.key] ∧
        (handleAddFile dht h p pmes).1 =
          .ret (some (SetClusterLevel pmes
            (if dht.GetTaskResult (h ++ evs) = "OK" then 88 else 99))) none) ∧
      (¬ (pmes.clusterLevelRaw = 10 ∨ 20 ≤ pmes.clusterLevelRaw) →
        (∀ k, Event.pinSetTask k ∉ evs) ∧
        (handleAddFile dht h p pmes).2 =
          (SendToClosestLeaf dht
            (addProviderLoop dht c p (PBPeersToPeerInfos pmes.providerPeers) h)
            (if pmes.clusterLevelRaw < 10 then
              SetClusterLevel pmes (pmes.clusterLevelRaw + 10) else pmes)).2 ∧
        (handleAddFile dht h p pmes).1 =
          (if (SendToClosestLeaf dht
                (addProviderLoop dht c p (PBPeersToPeerInfos pmes.providerPeers) h)
                (if pmes.clusterLevelRaw < 10 then
                  SetClusterLevel pmes (pmes.clusterLevelRaw + 10) else pmes)).1 = .panic
            then .panic else .ret none none) ∧
        (pmes.providerPeers ≠ [] → (handleAddFile dht h p pmes).1 = .ret none none)) := by
  have hann : ∀ k, Event.pinSetTask k ∉
      ((PBPeersToPeerInfos pmes.providerPeers).filter (accepted p)).flatMap
        (announce dht c p) := by
    intro k hmem
    rw [List.mem_flatMap] at hmem
    obtain ⟨pi, _, he⟩ := hmem
    rcases mem_announce he with h1 | h1 <;> cases h1
  have hnopin : ∀ (tr : List (PeerID × Reply)) (k : String), Event.pinSetTask k ∉
      ((PBPeersToPeerInfos pmes.providerPeers).filter (accepted p)).flatMap
        (announce dht c p) ++ requestEvents (SetClusterLevel pmes 50) tr := by
    intro tr k hmem
    rcases List.mem_append.mp hmem with h1 | h1
    · exact hann k h1
    · exact not_pin_mem_requestEvents _ _ _ h1
  by_cases hlt : pmes.clusterLevelRaw < 10
  · -- fan-out to the super peers, which are the node itself
    have hcall := handleAddFile_fanout dht h p pmes c hcid hlt
    obtain ⟨tr, htr⟩ := SendToClosestLeaf_requests dht
      (addProviderLoop dht c p (PBPeersToPeerInfos pmes.providerPeers) h)
      (SetClusterLevel pmes (pmes.clusterLevelRaw + 10))
    have hnp := SendToClosestLeaf_no_panic dht
      (addProviderLoop dht c p (PBPeersToPeerInfos pmes.providerPeers) h)
      (SetClusterLevel pmes (pmes.clusterLevelRaw + 10))
    refine ⟨((PBPeersToPeerInfos pmes.providerPeers).filter (accepted p)).flatMap
      (announce dht c p) ++ requestEvents (SetClusterLevel pmes 50) tr, ?_, ?_, ?_⟩
    · rw [hcall, htr, addProviderLoop_eq, List.append_assoc, SetClusterLevel_twice]
    · intro hleaf; omega
    · intro _
      refine ⟨hnopin tr, ?_, ?_, ?_⟩
      · rw [hcall, if_pos hlt]
      · rw [hcall, if_pos hlt]
      · intro hprov
        rw [hcall]
        exact if_neg (hnp hprov)
  · by_cases hmid : pmes.clusterLevelRaw < 20 ∧ pmes.clusterLevelRaw > 10
    · -- relay
      have hcall := handleAddFile_relay dht h p pmes c hcid hlt hmid
      obtain ⟨tr, htr⟩ := SendToClosestLeaf_requests dht
        (addProviderLoop dht c p (PBPeersToPeerInfos pmes.providerPeers) h) pmes
      have hnp := SendToClosestLeaf_no_panic dht
        (addProviderLoop dht c p (PBPeersToPeerInfos pmes.providerPeers) h) pmes
      refine ⟨((PBPeersToPeerInfos pmes.providerPeers).filter (accepted p)).flatMap
        (announce dht c p) ++ requestEvents (SetClusterLevel pmes 50) tr, ?_, ?_, ?_⟩
      · rw [hcall, htr, addProviderLoop_eq, List.append_assoc]
      · intro hleaf; omega
      · intro _
        refine ⟨hnopin tr, ?_, ?_, ?_⟩
        · rw [hcall, if_neg hlt]
        · rw [hcall, if_neg hlt]
        · intro hprov
          rw [hcall]
          exact if_neg (hnp hprov)
    · -- leaf
      have hcall := handleAddFile_leaf dht h p pmes c hcid hlt hmid
      refine ⟨((PBPeersToPeerInfos pmes.providerPeers).filter (accepted p)).flatMap
        (announce dht c p) ++ [Event.pinSetTask pmes.key], ?_, ?_, ?_⟩
      · rw [hcall, addProviderLoop_eq, List.append_assoc]
      · intro _
        refine ⟨by simp, by rw [hcall], ?_⟩
        rw [hcall, addProviderLoop_eq, List.append_assoc]
      · intro hn
        exfalso
        apply hn
        by_cases h10 : pmes.clusterLevelRaw = 10
        · exact Or.inl h10
        · right
          by_contra h20
          exact hmid ⟨by omega, by omega⟩

theorem handleAddFile_leaf_phase_witness :
    (handleAddFile nodeA [] "A" (addFileMsg 25 [peerA]) =
      (.ret (some (addFileMsg 88 [peerA])) none,
        [Event.addProvider "cidX" "A", Event.pinSetTask "cidX"])) ∧
    (handleAddFile nodeA [] "A" (addFileMsg 15 [peerA])).1 = .ret none none ∧
    (handleAddFile nodeA [] "A" (addFileMsg 15 [peerA])).2 =
      (SendToClosestLeaf nodeA [Event.addProvider "cidX" "A"] (addFileMsg 15 [peerA])).2 ∧
    (handleAddFile nodeA [] "A" (addFileMsg 3 [peerA])).2 =
      (SendToClosestLeaf nodeA [Event.addProvider "cidX" "A"] (addFileMsg 13 [peerA])).2 := by
  obtain ⟨evs, _, h2, _⟩ :=
    handleAddFile_leaf_phase nodeA [] "A" (addFileMsg 25 [peerA]) "cidX" rfl
  obtain ⟨evs15, _, _, h15⟩ :=
    handleAddFile_leaf_phase nodeA [] "A" (addFileMsg 15 [peerA]) "cidX" rfl
  obtain ⟨evs3, _, _, h3⟩ :=
    handleAddFile_leaf_phase nodeA [] "A" (addFileMsg 3 [peerA]) "cidX" rfl
  have hleaf := h2 (Or.inr (by decide))
  have hrelay := h15 (by decide)
  have hfan := h3 (by decide)
  refine ⟨by decide, hrelay.2.2.2 (by decide), hrelay.2.1, hfan.2.1⟩

/-! ### The scenario at level 0 -/

theorem leafLoop_single_88 (dht : IpfsDHT) (oristr : PeerID) (pmes : Message) (p : PeerID)
    (h : History) (resp : Message) (hp : p ≠ oristr)
    (hreply : dht.sendRequest h p pmes = .answered (some resp))
    (h88 : resp.clusterLevelRaw = 88) :
    leafLoop dht oristr pmes [p] 0 h =
      { early := false, count := -1,
        h := h ++ [Event.sendRequest p pmes (.answered (some resp))] } := by
  have hw : wrap32 (-1) = -1 := by decide
  rw [leafLoop, if_neg hp]
  simp [hreply, h88, hw, leafLoop]

/-- C2 (as the code has it): an ADD_FILE message at level 0 with a parsable
key and the local node as first provider entry, handled by that node: the
relay is entered locally with the message at level 10, its target count is 0,
the message sent to the leaf candidates carries level 50, the local node is
skipped, and when the only other candidate answers with level 88 the count
left is -1, the loop runs to the end of the candidates, the relay returns the
level-50 message without an error, and the handler returns no response. -/
theorem handleAddFile_level0_scenario (dht : IpfsDHT) (h : History) (p : PeerID)
    (pmes : Message) (first : PBPeer) (more : List PBPeer) (c : Cid) (peers : List PeerID)
    (leaf : PeerID) (resp : Message)
    (hlevel : pmes.clusterLevelRaw = 0)
    (hcid : dht.cidCast pmes.key = .ok c)
    (hprov : pmes.providerPeers = first :: more)
    (hfirst : first.id = dht.self)
    (hpeers : dht.GetClosestPeers
      (addProviderLoop dht c p (PBPeersToPeerInfos pmes.providerPeers) h) pmes.key = .ok peers)
    (hleaf : peers.filter (· ≠ dht.self) = [leaf])
    (hreply : dht.sendRequest
      (addProviderLoop dht c p (PBPeersToPeerInfos pmes.providerPeers) h) leaf
      (SetClusterLevel pmes 50) = .answered (some resp))
    (h88 : resp.clusterLevelRaw = 88) :
    handleAddFile dht h p pmes =
      (.ret none none,
        addProviderLoop dht c p (PBPeersToPeerInfos pmes.providerPeers) h ++
          [Event.sendRequest leaf (SetClusterLevel pmes 50) (.answered (some resp))]) ∧
    SendToClosestLeaf dht (addProviderLoop dht c p (PBPeersToPeerInfos pmes.providerPeers) h)
        (SetClusterLevel pmes (pmes.clusterLevelRaw + 10)) =
      (.ret (some (SetClusterLevel pmes 50)) none,
        addProviderLoop dht c p (PBPeersToPeerInfos pmes.providerPeers) h ++
          [Event.sendRequest leaf (SetClusterLevel pmes 50) (.answered (some resp))]) ∧
    wrap32 ((SetClusterLevel pmes (pmes.clusterLevelRaw + 10)).clusterLevelRaw - 10) = 0 ∧
    (SetClusterLevel pmes 50).clusterLevelRaw = 50 ∧
    leafLoop dht dht.self (SetClusterLevel pmes 50) peers 0
        (addProviderLoop dht c p (PBPeersToPeerInfos pmes.providerPeers) h) =
      { early := false, count := -1,
        h := addProviderLoop dht c p (PBPeersToPeerInfos pmes.providerPeers) h ++
          [Event.sendRequest leaf (SetClusterLevel pmes 50) (.answered (some resp))] } := by
  have hne : leaf ≠ dht.self := by
    have hmem : leaf ∈ peers.filter (· ≠ dht.self) := by rw [hleaf]; simp
    simpa using (List.mem_filter.mp hmem).2
  have hloop := leafLoop_single_88 dht dht.self (SetClusterLevel pmes 50) leaf _ resp hne
    hreply h88
  have hloop2 : leafLoop dht dht.self (SetClusterLevel pmes 50) peers 0
        (addProviderLoop dht c p (PBPeersToPeerInfos pmes.providerPeers) h) =
      { early := false, count := -1,
        h := addProviderLoop dht c p (PBPeersToPeerInfos pmes.providerPeers) h ++
          [Event.sendRequest leaf (SetClusterLevel pmes 50) (.answered (some resp))] } := by
    rw [leafLoop_filter, hleaf]; exact hloop
  have hcount : wrap32 ((SetClusterLevel pmes (pmes.clusterLevelRaw + 10)).clusterLevelRaw - 10)
      = 0 := by
    show wrap32 (wrap32 (pmes.clusterLevelRaw + 10) - 10) = 0
    rw [hlevel]; decide
  have hpp : PBPeersToPeerInfos pmes.providerPeers =
      { ID := dht.self, Addrs := first.addrs } :: PBPeersToPeerInfos more := by
    rw [hprov, ← hfirst]; rfl
  have hrelay : SendToClosestLeaf dht
      (addProviderLoop dht c p (PBPeersToPeerInfos pmes.providerPeers) h)
        (SetClusterLevel pmes (pmes.clusterLevelRaw + 10)) =
      (.ret (some (SetClusterLevel pmes 50)) none,
        addProviderLoop dht c p (PBPeersToPeerInfos pmes.providerPeers) h ++
          [Event.sendRequest leaf (SetClusterLevel pmes 50) (.answered (some resp))]) := by
    have hk : (SetClusterLevel pmes (pmes.clusterLevelRaw + 10)).key = pmes.key := rfl
    have hk2 : (SetClusterLevel pmes 50).key = pmes.key := rfl
    have hp2 : (SetClusterLevel pmes 50).providerPeers = pmes.providerPeers := rfl
    unfold SendToClosestLeaf
    simp only [hk, hpeers, SetClusterLevel_twice, hk2, hcid, hp2]
    rw [hcount]
    generalize hg : PBPeersToPeerInfos pmes.providerPeers = pinfos at hpp hloop2 ⊢
    subst hpp
    simp only [hloop2]
    rfl
  refine ⟨?_, hrelay, hcount, by show wrap32 50 = 50; decide, hloop2⟩
  have hlt : pmes.clusterLevelRaw < 10 := by omega
  simp only [handleAddFile, hcid, if_pos hlt, GetClosestSuperPeers, superPeerTasks_self, hrelay]
  rfl

theorem handleAddFile_level0_scenario_witness :
    handleAddFile nodeA [] "A" (addFileMsg 0 [peerA]) =
      (.ret none none,
        [Event.addProvider "cidX" "A",
          Event.sendRequest "C" (addFileMsg 50 [peerA])
            (.answered (some (addFileMsg 88 [peerA])))]) ∧
    leafLoop nodeA "A" (addFileMsg 50 [peerA]) ["A", "C"] 0 [Event.addProvider "cidX" "A"] =
      { early := false, count := -1,
        h := [Event.addProvider "cidX" "A",
          Event.sendRequest "C" (addFileMsg 50 [peerA])
            (.answered (some (addFileMsg 88 [peerA])))] } :=
  have hw := handleAddFile_level0_scenario nodeA [] "A" (addFileMsg 0 [peerA]) peerA []
    "cidX" ["A", "C"] "C" (addFileMsg 88 [peerA]) rfl rfl rfl rfl rfl (by decide) (by decide)
    (by decide)
  ⟨hw.1, hw.2.2.2.2⟩

/-- C2, on the small network: after the reply at level 88 of the only other
candidate the count of the relay is -1, not 0, the loop is not left early,
and the relay returns a message. -/
theorem level0_relay_count_not_zero :
    (addFileMsg 0 [peerA]).clusterLevelRaw = 0 ∧
    nodeA.GetClosestPeers [Event.addProvider "cidX" "A"] "cidX" = .ok ["A", "C"] ∧
    nodeA.sendRequest [Event.addProvider "cidX" "A"] "C" (addFileMsg 50 [peerA]) =
      .answered (some (addFileMsg 88 [peerA])) ∧
    (leafLoop nodeA "A" (addFileMsg 50 [peerA]) ["A", "C"] 0
      [Event.addProvider "cidX" "A"]).count = -1 ∧
    (leafLoop nodeA "A" (addFileMsg 50 [peerA]) ["A", "C"] 0
      [Event.addProvider "cidX" "A"]).early = false ∧
    (SendToClosestLeaf nodeA [Event.addProvider "cidX" "A"] (addFileMsg 10 [peerA])).1 =
      .ret (some (addFileMsg 50 [peerA])) none := by
  refine ⟨rfl, rfl, by decide, by decide, by decide, by decide⟩

/-- C1, at level 10: the level is below 20, and the key is submitted to the
pin executor and the message comes back as an acknowledgement. -/
theorem handleAddFile_level10_pins :
    (addFileMsg 10 [peerA]).clusterLevelRaw < 20 ∧
    nodeA.cidCast (addFileMsg 10 [peerA]).key = .ok "cidX" ∧
    handleAddFile nodeA [] "A" (addFileMsg 10 [peerA]) =
      (.ret (some (addFileMsg 88 [peerA])) none,
        [Event.addProvider "cidX" "A", Event.pinSetTask "cidX"]) := by
  refine ⟨by decide, rfl, by decide⟩

/-- C10: with an empty list of provider peers the relay reads `pinfos[0]` out
of range, on both ways into it (level below 10 through the local super peer,
and level strictly between 10 and 20). -/
theorem SendToClosestLeaf_empty_providers_panics :
    (addFileMsg 15 []).providerPeers = [] ∧
    nodeA.GetClosestPeers [] "cidX" = .ok ["A", "C"] ∧
    handleAddFile nodeA [] "A" (addFileMsg 15 []) = (.panic, []) ∧
    handleAddFile nodeA [] "A" (addFileMsg 0 []) = (.panic, []) ∧
    SendToClosestLeaf nodeA [] (addFileMsg 15 []) = (.panic, []) := by
  refine ⟨rfl, rfl, by decide, by decide, by decide⟩

/-! ### Discovery and provider lookup -/

/-- C6 (as the code has it): for a FIND_NODE message whose key is the local
node's identifier, whatever the routing oracle answers, handleFindPeer
returns a response without an error whose closer peers are exactly the one
entry of the local node when the peerstore holds an address for the local
node, and no entry at all when it holds none. -/
theorem handleFindPeer_self (dht : IpfsDHT) (h : History) (p : PeerID) (pmes : Message) :
    ∃ resp : Message,
      handleFindPeer dht h p { pmes with key := dht.self } = (.ret (some resp) none, h) ∧
      resp.closerPeers =
        if dht.peerAddrs h dht.self = [] then []
        else [{ id := dht.self, addrs := dht.peerAddrs h dht.self,
                connection := dht.Connectedness h dht.self }] := by
  refine ⟨{ NewMessage pmes.type "" (dht.GetClusterLevel { pmes with key := dht.self }) with
      closerPeers := PeerInfosToPBPeers dht h
        ((PeerInfos dht h [dht.self]).filter fun pi => pi.Addrs.length > 0) }, ?_, ?_⟩
  · unfold handleFindPeer
    simp only [if_true]
  · by_cases ha : dht.peerAddrs h dht.self = []
    · simp [PeerInfos, PeerInfosToPBPeers, ha]
    · have hl : 0 < (dht.peerAddrs h dht.self).length := List.length_pos.mpr ha
      simp [PeerInfos, PeerInfosToPBPeers, ha, hl]

/-- C6, on the small network: the peerstore holds no address for the local
node, and the response to a FIND_NODE for the local node has no closer
peer. -/
theorem handleFindPeer_self_without_address :
    findSelfMsg.key = nodeA.self ∧
    nodeA.peerAddrs [] nodeA.self = [] ∧
    handleFindPeer nodeA [] "B" findSelfMsg =
      (.ret (some { type := .FIND_NODE, clusterLevelRaw := 0, key := "", record := none,
                    closerPeers := [], providerPeers := [] }) none, []) := by
  refine ⟨rfl, rfl, by decide⟩

/-- C7 (as the code has it): for a GET_PROVIDERS message whose key parses as
a content identifier that the datastore holds, the providers of the response
are the providers of the provider table followed by the local node; the local
node is among them, as many times as in the provider table plus one. -/
theorem handleGetProviders_self (dht : IpfsDHT) (h : History) (p : PeerID) (pmes : Message)
    (c : Cid) (hcid : dht.cidCast pmes.key = .ok c)
    (hhas : dht.dsHas h (convertToDsKey dht (dht.KeyString c)) = (true, none)) :
    ∃ resp : Message,
      handleGetProviders dht h p pmes = (.ret (some resp) none, h) ∧
      resp.providerPeers.map (·.id) = dht.GetProviders h c ++ [dht.self] ∧
      dht.self ∈ resp.providerPeers.map (·.id) ∧
      (resp.providerPeers.map (·.id)).count dht.self =
        (dht.GetProviders h c).count dht.self + 1 := by
  have key : ∃ resp : Message,
      handleGetProviders dht h p pmes = (.ret (some resp) none, h) ∧
      resp.providerPeers.map (·.id) = dht.GetProviders h c ++ [dht.self] := by
    unfold handleGetProviders
    simp only [hcid, hhas]
    cases dht.betterPeersToQuery h pmes p dht.CloserPeerCount with
    | none =>
      refine ⟨_, rfl, ?_⟩
      simp [PeerInfos, PeerInfosToPBPeers, Function.comp_def]
    | some closer =>
      refine ⟨_, rfl, ?_⟩
      simp [PeerInfos, PeerInfosToPBPeers, Function.comp_def]
  obtain ⟨resp, h1, h2⟩ := key
  refine ⟨resp, h1, h2, ?_, ?_⟩
  · rw [h2]; simp
  · rw [h2, List.count_append]; simp

theorem handleGetProviders_self_witness :
    ∃ resp : Message,
      handleGetProviders nodeA [Event.dsPut "/cidX" [7]] "B" getProvidersMsg =
        (.ret (some resp) none, [Event.dsPut "/cidX" [7]]) ∧
      resp.providerPeers.map (·.id) = ["A"] := by
  obtain ⟨resp, h1, h2, _⟩ := handleGetProviders_self nodeA [Event.dsPut "/cidX" [7]] "B"
    getProvidersMsg "cidX" rfl (by decide)
  exact ⟨resp, h1, h2⟩

/-- C7, on the small network: the provider table already lists the local
node for the content, the datastore holds the content, and the local node is
twice among the providers of the response. -/
theorem handleGetProviders_self_twice :
    nodeA.cidCast getProvidersMsg.key = .ok "cidX" ∧
    nodeA.dsHas [Event.addProvider "cidX" "A", Event.dsPut "/cidX" [7]] "/cidX" =
      (true, none) ∧
    (handleGetProviders nodeA [Event.addProvider "cidX" "A", Event.dsPut "/cidX" [7]] "B"
        getProvidersMsg).1 =
      .ret (some { getProvidersMsg with
        providerPeers := [{ id := "A", addrs := [], connection := 0 },
                          { id := "A", addrs := [], connection := 0 }] }) none ∧
    (["A", "A"] : List PeerID).count "A" = 2 := by
  refine ⟨rfl, by decide, by decide, by decide⟩

/-! ### Stored records -/

theorem checkLocalDatastore_of_fresh (dht : IpfsDHT) (now : Time) (h : History) (k : String)
    (byts : Bytes) (rec : Record)
    (hget : dht.dsGet h (convertToDsKey dht k) = .ok (.bytes byts))
    (hdec : dht.Unmarshal byts = .ok rec) (hf : isFresh dht now rec) :
    checkLocalDatastore dht now h k = ((some rec, none), h) := by
  unfold checkLocalDatastore
  simp only [hget, hdec]
  by_cases ha : rec.GetAuthor = dht.self
  · rw [if_pos ha]
  · rw [if_neg ha]
    rcases hf with hf | ⟨t, ht, hage⟩
    · exact absurd hf ha
    · have hnot : ¬ (Sub now t > dht.MaxRecordAge) := not_lt.mpr hage
      simp only [ht, if_neg hnot]
      rfl

theorem checkLocalDatastore_of_stale (dht : IpfsDHT) (now : Time) (h : History) (k : String)
    (byts : Bytes) (rec : Record)
    (hget : dht.dsGet h (convertToDsKey dht k) = .ok (.bytes byts))
    (hdec : dht.Unmarshal byts = .ok rec) (hf : ¬ isFresh dht now rec) :
    checkLocalDatastore dht now h k =
      ((none, none), h ++ [Event.dsDelete (convertToDsKey dht k)]) := by
  have ha : ¬ rec.GetAuthor = dht.self := fun ha => hf (Or.inl ha)
  unfold checkLocalDatastore
  simp only [hget, hdec, if_neg ha]
  cases ht : dht.ParseRFC3339 rec.GetTimeReceived with
  | error err =>
    simp only []
    split <;> rfl
  | ok t =>
    have hold : Sub now t > dht.MaxRecordAge := by
      by_contra hle
      exact hf (Or.inr ⟨t, ht, not_lt.mp hle⟩)
    simp only [if_pos hold]
    rfl

theorem mapGet_after_delete (h : History) (k : DsKey) :
    mapGet (h ++ [Event.dsDelete k]) k = .error ErrNotFound := by
  simp [mapGet, List.reverse_append, List.find?_cons]

theorem mapGet_after_put (h : History) (k : DsKey) (data : Bytes) :
    mapGet (h ++ [Event.dsPut k data]) k = .ok (.bytes data) := by
  simp [mapGet, List.reverse_append, List.find?_cons]

theorem nodeA_codec (r : Record) (data : Bytes) (hm : nodeA.Marshal r = .ok data) :
    nodeA.Unmarshal data = .ok r := by
  by_cases hr : r = stampedRecord
  · have hd : data = [7] := by
      have : (Except.ok [7] : Except Error Bytes) = .ok data := by
        simpa [nodeA, hr] using hm
      cases this; rfl
    subst hr hd; rfl
  · simp [nodeA, hr] at hm

/-- C4: for a key under which the datastore holds a decodable record,
checkLocalDatastore returns the record if and only if the record is fresh
(the local node is its author, or its receive time parses and is at most
MaxRecordAge old); otherwise, also when the receive time is missing, it
returns no record and no error and issues a delete of the key, after which a
datastore whose delete succeeded no longer holds the key. -/
theorem checkLocalDatastore_freshness (dht : IpfsDHT) (now : Time) (h : History) (k : String)
    (byts : Bytes) (rec : Record)
    (hget : dht.dsGet h (convertToDsKey dht k) = .ok (.bytes byts))
    (hdec : dht.Unmarshal byts = .ok rec)
    (hstore : ∀ h1 k1, dht.dsDelete h1 k1 = none →
      dht.dsGet (h1 ++ [Event.dsDelete k1]) k1 = .error ErrNotFound) :
    ((checkLocalDatastore dht now h k).1.1 = some rec ↔ isFresh dht now rec) ∧
    (isFresh dht now rec → checkLocalDatastore dht now h k = ((some rec, none), h)) ∧
    (¬ isFresh dht now rec →
      checkLocalDatastore dht now h k =
        ((none, none), h ++ [Event.dsDelete (convertToDsKey dht k)]) ∧
      (dht.dsDelete h (convertToDsKey dht k) = none →
        dht.dsGet (checkLocalDatastore dht now h k).2 (convertToDsKey dht k) =
          .error ErrNotFound)) ∧
    (rec.GetAuthor ≠ dht.self → rec.timeReceived = none →
      (∀ t, dht.ParseRFC3339 "" ≠ .ok t) → ¬ isFresh dht now rec) := by
  have hyes := checkLocalDatastore_of_fresh dht now h k byts rec hget hdec
  have hno := checkLocalDatastore_of_stale dht now h k byts rec hget hdec
  refine ⟨⟨?_, fun hf => by rw [hyes hf]⟩, hyes, ?_, ?_⟩
  · intro hsome
    by_contra hf
    rw [hno hf] at hsome
    cases hsome
  · intro hf
    refine ⟨hno hf, ?_⟩
    intro hdel
    rw [hno hf]
    exact hstore _ _ hdel
  · intro ha hmiss hparse hf
    rcases hf with hf | ⟨t, ht, _⟩
    · exact ha hf
    · have : rec.GetTimeReceived = "" := by simp [Record.GetTimeReceived, hmiss]
      rw [this] at ht
      exact hparse t ht

theorem checkLocalDatastore_freshness_witness :
    checkLocalDatastore nodeA 200000000000000 [Event.dsPut "/k" [7]] "k" =
      ((none, none), [Event.dsPut "/k" [7], Event.dsDelete "/k"]) ∧
    nodeA.dsGet [Event.dsPut "/k" [7], Event.dsDelete "/k"] "/k" = .error ErrNotFound ∧
    checkLocalDatastore nodeA 2000 [Event.dsPut "/k" [7]] "k" =
      ((some stampedRecord, none), [Event.dsPut "/k" [7]]) := by
  have hold := checkLocalDatastore_freshness nodeA 200000000000000 [Event.dsPut "/k" [7]] "k"
    [7] stampedRecord rfl rfl (fun h1 k1 _ => mapGet_after_delete h1 k1)
  have hnew := checkLocalDatastore_freshness nodeA 2000 [Event.dsPut "/k" [7]] "k"
    [7] stampedRecord rfl rfl (fun h1 k1 _ => mapGet_after_delete h1 k1)
  have hstale : ¬ isFresh nodeA 200000000000000 stampedRecord := by
    intro hf
    rcases hf with hf | ⟨t, ht, hage⟩
    · exact absurd hf (by decide)
    · have ht2 : (Except.ok 1000 : Except Error Time) = .ok t := ht
      cases ht2
      exact absurd hage (by decide)
  have hfresh : isFresh nodeA 2000 stampedRecord := Or.inr ⟨1000, rfl, by decide⟩
  refine ⟨(hold.2.2.1 hstale).1, ?_, hnew.2.1 hfresh⟩
  have := (hold.2.2.1 hstale).2 rfl
  rw [(hold.2.2.1 hstale).1] at this
  exact this

/-! ### Put followed by get -/

/-- C3 (as the code has it): for every non-empty key and every record, if
handlePutValue succeeds (which takes that the record passes the local
validation), the datastore returns what was put, unmarshalling inverts
marshalling and the receive time stamped at the put parses back, then
handleGetValue for the same key straight afterwards, at a time at most
MaxRecordAge after the put, succeeds with a record whose value is the value
that was put and whose receive time is the stamp of the put. -/
theorem handlePutValue_handleGetValue_roundtrip (dht : IpfsDHT) (now1 now2 : Time)
    (h : History) (p q : PeerID) (pmes gmes : Message) (r : Record) (back : Option Message)
    (hkey : pmes.key ≠ "") (hsame : gmes.key = pmes.key)
    (hrec : pmes.record = some r)
    (hput : (handlePutValue dht now1 h p pmes).1 = .ret back none)
    (hstore : ∀ h1 k1 data, dht.dsPut h1 k1 data = none →
      dht.dsGet (h1 ++ [Event.dsPut k1 data]) k1 = .ok (.bytes data))
    (hcodec : ∀ r1 data, dht.Marshal r1 = .ok data → dht.Unmarshal data = .ok r1)
    (htime : dht.ParseRFC3339 (dht.FormatRFC3339 now1) = .ok now1)
    (hage : Sub now2 now1 ≤ dht.MaxRecordAge) :
    ∃ (resp : Message) (rec : Record),
      handleGetValue dht now2 (handlePutValue dht now1 h p pmes).2 q gmes =
        (.ret (some resp) none, (handlePutValue dht now1 h p pmes).2) ∧
      resp.record = some rec ∧
      rec.value = r.value ∧
      rec.timeReceived = some (dht.FormatRFC3339 now1) := by
  -- what the put has stored
  have hstored : ∃ data,
      dht.Marshal { cleanRecord r with timeReceived := some (dht.FormatRFC3339 now1) } =
        .ok data ∧
      dht.dsPut h (convertToDsKey dht pmes.key) data = none ∧
      (handlePutValue dht now1 h p pmes).2 =
        h ++ [Event.dsPut (convertToDsKey dht pmes.key) data] := by
    unfold handlePutValue at hput ⊢
    simp only [hrec] at hput ⊢
    cases hv : dht.verifyRecordLocally h (cleanRecord r) with
    | some err => simp only [hv] at hput; cases hput
    | none =>
      simp only [hv] at hput ⊢
      cases hm : dht.Marshal
          { cleanRecord r with timeReceived := some (dht.FormatRFC3339 now1) } with
      | error err => simp only [hm] at hput; cases hput
      | ok data =>
        simp only [hm] at hput ⊢
        refine ⟨data, rfl, ?_, rfl⟩
        injection hput with _ herr
  obtain ⟨data, hm, hperr, hhist⟩ := hstored
  have hfresh : isFresh dht now2
      { cleanRecord r with timeReceived := some (dht.FormatRFC3339 now1) } :=
    Or.inr ⟨now1, htime, hage⟩
  have hcheck := checkLocalDatastore_of_fresh dht now2
    (h ++ [Event.dsPut (convertToDsKey dht pmes.key) data]) pmes.key data _
    (hstore _ _ _ hperr) (hcodec _ _ hm) hfresh
  have hval : (cleanRecord r).value = r.value := by
    unfold cleanRecord
    by_cases hs : r.signature.length = 0 <;> simp [hs]
  rw [hhist]
  unfold handleGetValue
  simp only [hsame, if_neg hkey, hcheck]
  split
  · exact ⟨_, _, rfl, rfl, hval, rfl⟩
  · exact ⟨_, _, rfl, rfl, hval, rfl⟩

theorem handlePutValue_handleGetValue_roundtrip_witness :
    ∃ (resp : Message) (rec : Record),
      handleGetValue nodeA 2000 (handlePutValue nodeA 1000 [] "B" (putMsg "k")).2 "B"
          (getMsg "k") =
        (.ret (some resp) none, (handlePutValue nodeA 1000 [] "B" (putMsg "k")).2) ∧
      resp.record = some rec ∧
      rec.value = [1, 2, 3] ∧
      rec.timeReceived = some "T1000" :=
  handlePutValue_handleGetValue_roundtrip nodeA 1000 2000 [] "B" "B" (putMsg "k") (getMsg "k")
    { key := some "k", value := [1, 2, 3], author := some "X", signature := [],
      timeReceived := some "sender time", XXX_unrecognized := [9] }
    (some { putMsg "k" with record := some stampedRecord })
    (by decide) rfl rfl (by decide)
    (fun h1 k1 data _ => mapGet_after_put h1 k1 data) nodeA_codec rfl (by decide)

/-- C3, for the empty key on the small network: the record passes the local
validation, the put succeeds and stores the record, the datastore returns
what was put and unmarshalling inverts marshalling, and yet handleGetValue
for the same key straight afterwards fails, with no response. -/
theorem handlePutValue_handleGetValue_empty_key :
    nodeA.verifyRecordLocally [] stampedRecord = none ∧
    handlePutValue nodeA 1000 [] "B" (putMsg "") =
      (.ret (some { putMsg "" with record := some stampedRecord }) none,
        [Event.dsPut "/" [7]]) ∧
    nodeA.dsGet [Event.dsPut "/" [7]] (convertToDsKey nodeA "") = .ok (.bytes [7]) ∧
    nodeA.Unmarshal [7] = .ok stampedRecord ∧
    handleGetValue nodeA 1000 [Event.dsPut "/" [7]] "B" (getMsg "") =
      (.ret none (some "handleGetValue but no key was provided"), [Event.dsPut "/" [7]]) := by
  refine ⟨rfl, by decide, rfl, rfl, by decide⟩

end DHT
